import Mathlib

/-!
Verification development for the PyScry import-resolution engine
(`src/pyscry/pyscry.py`).

The Python module is shallowly embedded as executable Lean definitions:

* Python strings are `String`, compared lexicographically by code point
  exactly as Python's `sorted` compares them (`strLe` below);
* the syntax trees produced by `ast.parse` are modelled by the mutual
  inductive `PyAst` / `PyAstList` (import statements plus arbitrary
  other nodes with children, which covers imports nested in functions,
  classes and conditionals — `ast.walk` visits every node);
* the host environment that `pyscry` introspects
  (`importlib.metadata.packages_distributions()`, `importlib.metadata.version`
  and `is_stdlib_module`'s probing of `sys`/`importlib`/`sysconfig`) is a
  record of abstract capabilities `Env`; a raised `PackageNotFoundError`
  from `md.version` is modelled by `Option.none`;
* reading and parsing one source file has four observable outcomes
  (`ScanOutcome`): a parsed tree, a `SyntaxError`, an `OSError`, or any
  other exception (e.g. `UnicodeDecodeError`, which is neither);
* a worker pool (`multiprocessing.Pool` or the tests' `FakePool`) maps a
  function over a list and returns results in input order; a worker
  exception is re-raised by `map`, modelled with `Except`;
* `process_files` writes to a writer and runs two `pool.map` phases; its
  observable behaviour is the ordered trace of phase starts and write
  calls plus an optional uncaught exception (`ProcOutcome`).  The
  `json.dump` serialisation itself is kept abstract: the chunk records
  the structured payload handed to it.
-/

namespace PyScry

/-! ## Python string ordering

Python compares strings lexicographically by Unicode code point; `sorted`
uses exactly this order.  Core `String` order does not reduce in the
kernel, so the order is defined directly on the code-point lists. -/

/-- Lexicographic comparison of code-point lists, true when the first
list is less than or equal to the second (Python `a <= b` on strings). -/
def lexLe : List Char → List Char → Bool
  | [], _ => true
  | _ :: _, [] => false
  | a :: as, b :: bs =>
    if a.toNat < b.toNat then true
    else if b.toNat < a.toNat then false
    else lexLe as bs

/-- Python's string order, as a relation on `String`. -/
def strLe (a b : String) : Prop := lexLe a.data b.data = true

instance : DecidableRel strLe := fun a b => by unfold strLe; infer_instance

theorem charToNat_inj {a b : Char} (h : a.toNat = b.toNat) : a = b :=
  Char.ext (UInt32.ext (by exact_mod_cast h))

theorem lexLe_total : ∀ as bs : List Char, lexLe as bs = true ∨ lexLe bs as = true
  | [], _ => Or.inl rfl
  | _ :: _, [] => Or.inr rfl
  | a :: as, b :: bs => by
    unfold lexLe
    rcases Nat.lt_trichotomy a.toNat b.toNat with h | h | h
    · left; simp [h]
    · have hne : ¬ a.toNat < b.toNat := by omega
      have hne' : ¬ b.toNat < a.toNat := by omega
      rcases lexLe_total as bs with ih | ih <;> simp [hne, hne', ih]
    · right; simp [h]

theorem lexLe_trans :
    ∀ as bs cs : List Char, lexLe as bs = true → lexLe bs cs = true → lexLe as cs = true
  | [], _, _, _, _ => rfl
  | _ :: _, [], _, h, _ => by simp [lexLe] at h
  | _ :: _, _ :: _, [], _, h => by simp [lexLe] at h
  | a :: as, b :: bs, c :: cs, h₁, h₂ => by
    unfold lexLe at h₁ h₂ ⊢
    rcases Nat.lt_trichotomy a.toNat b.toNat with hab | hab | hab
    · rcases Nat.lt_trichotomy b.toNat c.toNat with hbc | hbc | hbc
      · simp [show a.toNat < c.toNat by omega]
      · simp [show a.toNat < c.toNat by omega]
      · simp [show ¬ b.toNat < c.toNat by omega, show c.toNat < b.toNat by omega] at h₂
    · rcases Nat.lt_trichotomy b.toNat c.toNat with hbc | hbc | hbc
      · simp [show a.toNat < c.toNat by omega]
      · simp [show ¬ a.toNat < b.toNat by omega, show ¬ b.toNat < a.toNat by omega] at h₁
        simp [show ¬ b.toNat < c.toNat by omega, show ¬ c.toNat < b.toNat by omega] at h₂
        simp [show ¬ a.toNat < c.toNat by omega, show ¬ c.toNat < a.toNat by omega]
        exact lexLe_trans as bs cs h₁ h₂
      · simp [show ¬ b.toNat < c.toNat by omega, show c.toNat < b.toNat by omega] at h₂
    · simp [show ¬ a.toNat < b.toNat by omega, show b.toNat < a.toNat by omega] at h₁

theorem lexLe_antisymm :
    ∀ as bs : List Char, lexLe as bs = true → lexLe bs as = true → as = bs
  | [], [], _, _ => rfl
  | _ :: _, [], h, _ => by simp [lexLe] at h
  | [], _ :: _, _, h => by simp [lexLe] at h
  | a :: as, b :: bs, h₁, h₂ => by
    unfold lexLe at h₁ h₂
    rcases Nat.lt_trichotomy a.toNat b.toNat with hab | hab | hab
    · simp [show ¬ b.toNat < a.toNat by omega, hab] at h₂
    · simp [show ¬ a.toNat < b.toNat by omega, show ¬ b.toNat < a.toNat by omega] at h₁ h₂
      rw [charToNat_inj hab, lexLe_antisymm as bs h₁ h₂]
    · simp [show ¬ a.toNat < b.toNat by omega, hab] at h₁

instance : IsTotal String strLe := ⟨fun a b => lexLe_total a.data b.data⟩

instance : IsTrans String strLe := ⟨fun a b c => lexLe_trans a.data b.data c.data⟩

instance : IsAntisymm String strLe :=
  ⟨fun a b h₁ h₂ => by
    cases a; cases b
    exact congrArg String.mk (lexLe_antisymm _ _ h₁ h₂)⟩

/-- Python's `sorted` on a list of strings. -/
def sortStr (l : List String) : List String := l.insertionSort strLe

theorem sortStr_sorted (l : List String) : (sortStr l).Sorted strLe :=
  List.sorted_insertionSort strLe l

theorem sortStr_perm (l : List String) : List.Perm (sortStr l) l :=
  List.perm_insertionSort strLe l

theorem mem_sortStr {a : String} {l : List String} : a ∈ sortStr l ↔ a ∈ l :=
  (sortStr_perm l).mem_iff

theorem sortStr_nodup {l : List String} (h : l.Nodup) : (sortStr l).Nodup :=
  ((sortStr_perm l).nodup_iff).mpr h

theorem sortStr_congr_perm {l₁ l₂ : List String} (h : List.Perm l₁ l₂) :
    sortStr l₁ = sortStr l₂ :=
  List.eq_of_perm_of_sorted
    (((sortStr_perm l₁).trans h).trans (sortStr_perm l₂).symm)
    (sortStr_sorted l₁) (sortStr_sorted l₂)

theorem sortStr_eq_of_mem_nodup {l₁ l₂ : List String} (h₁ : l₁.Nodup) (h₂ : l₂.Nodup)
    (h : ∀ a, a ∈ l₁ ↔ a ∈ l₂) : sortStr l₁ = sortStr l₂ :=
  sortStr_congr_perm
    (List.perm_of_nodup_nodup_toFinset_eq h₁ h₂ (by ext a; simp [List.mem_toFinset, h a]))

/-! ## Syntax trees and `find_imports`

Python's `ast.walk(tree)` visits every node of the tree, at any nesting
depth.  `find_imports` reacts only to `ast.Import` nodes (whose `names`
are dotted alias strings) and `ast.ImportFrom` nodes (an optional dotted
`module` string plus a relative-import `level`); every other node merely
contributes its children to the walk, which the `other` constructor
models.  The walk order is irrelevant because the Python function builds
a set; the embedding returns the list of elements in visit order and the
theorems speak about membership. -/

mutual
inductive PyAst where
  | imp (names : List String)
  | impFrom (module : Option String) (level : Nat)
  | other (children : PyAstList)

inductive PyAstList where
  | nil
  | cons (head : PyAst) (tail : PyAstList)
end

/-- Python `name.split(".")[0]`: the first dotted segment of an imported
name (code points up to the first `.`). -/
def firstSegment (s : String) : String := ⟨s.data.takeWhile (fun c => c ≠ '.')⟩

mutual
/-- Embedding of `find_imports` (pyscry.py lines 45–63).  An `Import`
node adds `alias.name.split(".")[0]` for each alias; an `ImportFrom`
node with `level > 0` is skipped, and otherwise adds
`module.split(".")[0]` when `module` is truthy (Python's `if
node.module:` is false both for `None` and for the empty string). -/
def find_imports : PyAst → List String
  | .imp names => names.map firstSegment
  | .impFrom module level =>
    if level > 0 then []
    else
      match module with
      | some m => if m = "" then [] else [firstSegment m]
      | none => []
  | .other children => find_imports_children children

/-- Modules contributed by the walk of a list of child nodes. -/
def find_imports_children : PyAstList → List String
  | .nil => []
  | .cons t ts => find_imports t ++ find_imports_children ts
end

mutual
/-- Parser reachability invariant: `ast.parse` never produces an
`ImportFrom` node whose `module` is the empty string (it is either a
dotted name or `None`). -/
def wfAst : PyAst → Bool
  | .imp _ => true
  | .impFrom module _ => module ≠ some ""
  | .other children => wfAstList children

/-- Well-formedness of every tree in a child list. -/
def wfAstList : PyAstList → Bool
  | .nil => true
  | .cons t ts => wfAst t && wfAstList ts
end

mutual
/-- Modelled from the spec: the dotted names imported by
absolute import statements anywhere in the tree — every alias of an `import`
statement, and the `module` of a `from … import` whose relative level
is zero; relative imports contribute nothing.  This is the spec-side
definition that `find_imports` is compared against. -/
def absImportedNames : PyAst → List String
  | .imp names => names
  | .impFrom module level =>
    if level = 0 then
      match module with
      | some m => [m]
      | none => []
    else []
  | .other children => absImportedNamesList children

/-- Absolutely imported names of a list of child nodes. -/
def absImportedNamesList : PyAstList → List String
  | .nil => []
  | .cons t ts => absImportedNames t ++ absImportedNamesList ts
end

/-! ## Data model: distributions and the host environment -/

/-- Embedding of the `Distribution` dataclass (name plus optional
installed version). -/
structure Distribution where
  name : String
  version : Option String := none
deriving DecidableEq

/-- Embedding of `Distribution.to_specifier` (pyscry.py lines 33–42). -/
def Distribution.to_specifier (self : Distribution) (version_style : String := "minimum") :
    String :=
  match self.version with
  | none => self.name
  | some version =>
    if version_style = "none" then self.name
    else
      let op :=
        if version_style = "compatible" then "~="
        else if version_style = "exact" then "=="
        else ">="
      self.name ++ op ++ version

/-- Host-environment capabilities used by pyscry: `pkgMap m` is
`PKG_MAP.get(m) or []` (the preloaded
`importlib.metadata.packages_distributions()` table); `version d` is
`importlib.metadata.version(d)`, with `none` standing for a raised
`PackageNotFoundError`; `isStdlib m` is the result of
`is_stdlib_module(m)`, whose probing of `sys.builtin_module_names`, import
specs and `sysconfig` paths is environment introspection outside
the engine's algorithmic core. -/
structure Env where
  pkgMap : String → List String
  version : String → Option String
  isStdlib : String → Bool

/-- Embedding of `module_to_distributions` (pyscry.py lines 66–81): one
`Distribution` per candidate name, carrying the version when the lookup
succeeds and no version when `PackageNotFoundError` is caught. -/
def module_to_distributions (env : Env) (module_name : String) : List Distribution :=
  (env.pkgMap module_name).map fun dist =>
    match env.version dist with
    | some version => { name := dist, version := some version }
    | none => { name := dist }

/-! ## Scanning one file -/

/-- Observable result of `path.read_text()` followed by
`ast.parse(source)` for one source file: a parsed tree, or the class of
exception raised.  `otherError` covers every exception that is neither
a `SyntaxError` nor an `OSError` (for example `UnicodeDecodeError` from
`read_text`, which is a `ValueError`). -/
inductive ScanOutcome where
  | parsed (tree : PyAst)
  | syntaxError
  | osError
  | otherError

/-- A worker exception that escapes `collect_imports_from_source` and is
re-raised by `pool.map`. -/
inductive PyExn where
  | uncaught
deriving DecidableEq

/-- Return value of one scan: the collected module names plus the
warning messages passed to `logger.warning`. -/
structure ScanReturn where
  modules : List String
  warnings : List String
deriving DecidableEq

/-- Embedding of `collect_imports_from_source` (pyscry.py lines
136–151): a parsed file yields its imports; `SyntaxError` and `OSError`
are caught, log one warning and yield the empty set; any other
exception propagates. -/
def collect_imports_from_source (path : ScanOutcome) : Except PyExn ScanReturn :=
  match path with
  | .parsed tree => .ok { modules := find_imports tree, warnings := [] }
  | .syntaxError => .ok { modules := [], warnings := ["Syntax error"] }
  | .osError => .ok { modules := [], warnings := ["Error reading"] }
  | .otherError => .error .uncaught

/-! ## The worker pool and the batch -/

/-- A worker pool (`PoolProtocol`): `map` applies a function to each
element and returns the results in input order — this is the contract
of `multiprocessing.Pool.map` and of the tests' `FakePool`; the worker
count influences scheduling only, never the value returned. -/
structure Pool where
  jobCount : Nat

/-- Apply a total worker function across the inputs. -/
def Pool.map {α β : Type} (_self : Pool) (func : α → β) (iterable : List α) : List β :=
  iterable.map func

/-- Apply a worker function that may raise: `pool.map` re-raises an
exception raised inside any worker. -/
def Pool.mapE {α β : Type} (self : Pool) (func : α → Except PyExn β) :
    List α → Except PyExn (List β)
  | [] => .ok []
  | x :: xs =>
    match func x, Pool.mapE self func xs with
    | .error e, _ => .error e
    | .ok _, .error e => .error e
    | .ok y, .ok ys => .ok (y :: ys)

/-- Embedding of `collect_imports` (pyscry.py lines 154–159):
`sorted(set(itertools.chain.from_iterable(pool.map(collect_imports_from_source, paths))))`. -/
def collect_imports (pool : Pool) (paths : List ScanOutcome) : Except PyExn (List String) :=
  match pool.mapE collect_imports_from_source paths with
  | .error e => .error e
  | .ok results => .ok (sortStr ((results.map ScanReturn.modules).flatten.dedup))

/-! ## `process_files` and its observable behaviour -/

/-- The structured value handed to `json.dump`: the payload dictionary
with its `distributions` array and its insertion-ordered `unresolved`
object. -/
structure Payload where
  distributions : List String
  unresolved : List (String × List String)
deriving DecidableEq

/-- One call on the writer: either a raw string write
(`writer.write(...)`) or the serialisation of the JSON payload
(`json.dump(payload, writer, ...)`, whose byte-level encoding is kept
abstract). -/
inductive Chunk where
  | text (s : String)
  | jsonDump (payload : Payload) (pretty : Bool)
deriving DecidableEq

/-- Observable events of one `process_files` call, in program order:
the dispatch of the scan-phase `pool.map` (line 176 via
`collect_imports`), the dispatch of the resolve-phase `pool.map` (line
179), and each write to the output. -/
inductive Event where
  | scanPhase
  | resolvePhase
  | output (c : Chunk)
deriving DecidableEq

/-- An exception escaping `process_files`: the `ValueError` raised for
an unsupported `output_format`, or an exception propagated from a
worker. -/
inductive ProcError where
  | valueError (output_format : String)
  | propagated (e : PyExn)
deriving DecidableEq

/-- Result of one `process_files` call: the ordered trace of phase
dispatches and writes, plus the exception that escaped, if any. -/
structure ProcOutcome where
  trace : List Event
  error : Option ProcError
deriving DecidableEq

/-- Embedding of `process_files` (pyscry.py lines 162–218).  The scan
phase runs first (line 176); a worker exception escaping it propagates
out before anything else happens.  The resolve phase (line 179) and the
flatten/sort of specifiers (lines 182–184) run before the format is
examined, so the `ValueError` for an unknown format (line 212) fires
only after both concurrent phases.  The trailing `logger.info` loop
(lines 214–217) only logs and is not part of the observable output. -/
def process_files (env : Env) (pool : Pool) (paths : List ScanOutcome)
    (output_format : String := "text") (pretty : Bool := false)
    (version_style : String := "minimum") : ProcOutcome :=
  match collect_imports pool paths with
  | .error e => { trace := [.scanPhase], error := some (.propagated e) }
  | .ok imports =>
    let mapped := pool.map (module_to_distributions env) imports
    let dist_map := imports.zip mapped
    let flattened :=
      ((dist_map.map Prod.snd).flatten.map fun info => info.to_specifier version_style).dedup
    let dists := sortStr flattened
    if output_format = "text" then
      { trace := [.scanPhase, .resolvePhase] ++ dists.map fun d => .output (.text (d ++ "\n"))
        error := none }
    else if output_format = "json" then
      let unresolved_modules :=
        (dist_map.filter fun p => !(env.isStdlib p.1) && p.2.isEmpty).map Prod.fst
      let unresolved := (sortStr unresolved_modules).map fun m => (m, sortStr (env.pkgMap m))
      { trace := [.scanPhase, .resolvePhase,
                  .output (.jsonDump { distributions := dists, unresolved := unresolved } pretty),
                  .output (.text "\n")]
        error := none }
    else
      { trace := [.scanPhase, .resolvePhase], error := some (.valueError output_format) }

/-- The payload passed to `json.dump` during a `process_files` call, if
one was. -/
def jsonOutput (o : ProcOutcome) : Option Payload :=
  o.trace.findSome? fun e =>
    match e with
    | .output (.jsonDump p _) => some p
    | _ => none

/-! ## Lemmas about scanning and `collect_imports` -/

/-- Totalised scan result: the `.ok` payload of
`collect_imports_from_source`, with an irrelevant junk value at
`otherError`, where the real function raises. -/
def scanOk : ScanOutcome → ScanReturn
  | .parsed tree => { modules := find_imports tree, warnings := [] }
  | .syntaxError => { modules := [], warnings := ["Syntax error"] }
  | .osError => { modules := [], warnings := ["Error reading"] }
  | .otherError => { modules := [], warnings := [] }

theorem cifs_eq_ok {f : ScanOutcome} (h : f ≠ .otherError) :
    collect_imports_from_source f = .ok (scanOk f) := by
  cases f <;> first | rfl | exact absurd rfl h

theorem mapE_scan_cons_other (pool : Pool) (fs : List ScanOutcome) :
    pool.mapE collect_imports_from_source (.otherError :: fs) = .error .uncaught := rfl

theorem mapE_scan_cons_error (pool : Pool) {f : ScanOutcome} {fs : List ScanOutcome}
    {e : PyExn} (hf : f ≠ .otherError)
    (hfs : pool.mapE collect_imports_from_source fs = .error e) :
    pool.mapE collect_imports_from_source (f :: fs) = .error e := by
  simp [Pool.mapE, cifs_eq_ok hf, hfs]

theorem mapE_scan_cons_ok (pool : Pool) {f : ScanOutcome} {fs : List ScanOutcome}
    {ys : List ScanReturn} (hf : f ≠ .otherError)
    (hfs : pool.mapE collect_imports_from_source fs = .ok ys) :
    pool.mapE collect_imports_from_source (f :: fs) = .ok (scanOk f :: ys) := by
  simp [Pool.mapE, cifs_eq_ok hf, hfs]

theorem mapE_scan_ok (pool : Pool) {paths : List ScanOutcome}
    (h : ScanOutcome.otherError ∉ paths) :
    pool.mapE collect_imports_from_source paths = .ok (paths.map scanOk) := by
  induction paths with
  | nil => rfl
  | cons f fs ih =>
    have hf : f ≠ .otherError := by rintro rfl; exact h (List.mem_cons_self _ _)
    have hfs : ScanOutcome.otherError ∉ fs := fun hc => h (List.mem_cons_of_mem _ hc)
    rw [List.map_cons]
    exact mapE_scan_cons_ok pool hf (ih hfs)

theorem mapE_scan_error_iff (pool : Pool) (paths : List ScanOutcome) :
    pool.mapE collect_imports_from_source paths = .error .uncaught ↔
      ScanOutcome.otherError ∈ paths := by
  constructor
  · intro h
    by_contra hmem
    rw [mapE_scan_ok pool hmem] at h
    exact Except.noConfusion h
  · intro hmem
    induction paths with
    | nil => cases hmem
    | cons f fs ih =>
      rcases List.mem_cons.mp hmem with h | h
      · rw [← h]; exact mapE_scan_cons_other pool fs
      · by_cases hf : f = .otherError
        · subst hf; exact mapE_scan_cons_other pool fs
        · exact mapE_scan_cons_error pool hf (ih h)

theorem collect_imports_eq_error_iff (pool : Pool) (paths : List ScanOutcome) :
    collect_imports pool paths = .error .uncaught ↔ ScanOutcome.otherError ∈ paths := by
  by_cases hmem : ScanOutcome.otherError ∈ paths
  · unfold collect_imports
    rw [(mapE_scan_error_iff pool paths).mpr hmem]
    simp [hmem]
  · unfold collect_imports
    rw [mapE_scan_ok pool hmem]
    simp [hmem]

theorem collect_imports_eq_ok (pool : Pool) {paths : List ScanOutcome}
    (h : ScanOutcome.otherError ∉ paths) :
    collect_imports pool paths =
      .ok (sortStr ((paths.map fun f => (scanOk f).modules).flatten.dedup)) := by
  unfold collect_imports
  rw [mapE_scan_ok pool h]
  show Except.ok (sortStr ((paths.map scanOk).map ScanReturn.modules).flatten.dedup) = _
  rw [List.map_map]
  rfl

theorem collect_imports_ok_not_mem {pool : Pool} {paths : List ScanOutcome}
    {res : List String} (h : collect_imports pool paths = .ok res) :
    ScanOutcome.otherError ∉ paths := by
  intro hmem
  rw [(collect_imports_eq_error_iff pool paths).mpr hmem] at h
  cases h

/-- Module `m` is imported by some file of the batch: some path scans
successfully (without raising) and its module set contains `m`. -/
def importedByBatch (paths : List ScanOutcome) (m : String) : Prop :=
  ∃ f ∈ paths, ∃ r, collect_imports_from_source f = .ok r ∧ m ∈ r.modules

theorem importedByBatch_iff {paths : List ScanOutcome}
    (h : ScanOutcome.otherError ∉ paths) (m : String) :
    importedByBatch paths m ↔ ∃ f ∈ paths, m ∈ (scanOk f).modules := by
  unfold importedByBatch
  constructor
  · rintro ⟨f, hf, r, hr, hm⟩
    refine ⟨f, hf, ?_⟩
    have hne : f ≠ .otherError := by rintro rfl; exact h hf
    rw [cifs_eq_ok hne] at hr
    injection hr with hr
    rw [hr]
    exact hm
  · rintro ⟨f, hf, hm⟩
    have hne : f ≠ .otherError := by rintro rfl; exact h hf
    exact ⟨f, hf, scanOk f, cifs_eq_ok hne, hm⟩

theorem mem_collect_imports_ok {pool : Pool} {paths : List ScanOutcome} {res : List String}
    (h : collect_imports pool paths = .ok res) (m : String) :
    m ∈ res ↔ importedByBatch paths m := by
  have hmem := collect_imports_ok_not_mem h
  rw [collect_imports_eq_ok pool hmem] at h
  injection h with h
  subst h
  rw [mem_sortStr, List.mem_dedup, List.mem_flatten, importedByBatch_iff hmem]
  constructor
  · rintro ⟨l, hl, hml⟩
    rcases List.mem_map.mp hl with ⟨f, hf, rfl⟩
    exact ⟨f, hf, hml⟩
  · rintro ⟨f, hf, hm⟩
    exact ⟨(scanOk f).modules, List.mem_map_of_mem _ hf, hm⟩

theorem collect_imports_ok_sorted_nodup {pool : Pool} {paths : List ScanOutcome}
    {res : List String} (h : collect_imports pool paths = .ok res) :
    res.Sorted strLe ∧ res.Nodup := by
  have hmem := collect_imports_ok_not_mem h
  rw [collect_imports_eq_ok pool hmem] at h
  injection h with h
  subst h
  exact ⟨sortStr_sorted _, sortStr_nodup (List.nodup_dedup _)⟩

theorem collect_imports_congr_perm (pool₁ pool₂ : Pool) {paths₁ paths₂ : List ScanOutcome}
    (h : List.Perm paths₁ paths₂) :
    collect_imports pool₁ paths₁ = collect_imports pool₂ paths₂ := by
  by_cases hmem : ScanOutcome.otherError ∈ paths₁
  · rw [(collect_imports_eq_error_iff pool₁ paths₁).mpr hmem,
        (collect_imports_eq_error_iff pool₂ paths₂).mpr (h.mem_iff.mp hmem)]
  · have hmem₂ : ScanOutcome.otherError ∉ paths₂ := fun hc => hmem (h.mem_iff.mpr hc)
    rw [collect_imports_eq_ok pool₁ hmem, collect_imports_eq_ok pool₂ hmem₂]
    congr 1
    exact sortStr_congr_perm ((h.map _).flatten.dedup)

theorem collect_imports_cons_mem (pool : Pool) {f : ScanOutcome} {paths : List ScanOutcome}
    (hf : f ∈ paths) :
    collect_imports pool (f :: paths) = collect_imports pool paths := by
  by_cases hmem : ScanOutcome.otherError ∈ paths
  · rw [(collect_imports_eq_error_iff pool (f :: paths)).mpr (List.mem_cons_of_mem f hmem),
        (collect_imports_eq_error_iff pool paths).mpr hmem]
  · have hne : f ≠ .otherError := by rintro rfl; exact hmem hf
    have hmem' : ScanOutcome.otherError ∉ f :: paths := by
      intro hc
      rcases List.mem_cons.mp hc with h | h
      · exact hne h.symm
      · exact hmem h
    rw [collect_imports_eq_ok pool hmem', collect_imports_eq_ok pool hmem]
    congr 1
    apply sortStr_eq_of_mem_nodup (List.nodup_dedup _) (List.nodup_dedup _)
    intro a
    simp only [List.map_cons, List.flatten_cons, List.mem_dedup, List.mem_append,
      List.mem_flatten]
    constructor
    · rintro (ha | ha)
      · exact ⟨(scanOk f).modules, List.mem_map_of_mem _ hf, ha⟩
      · exact ha
    · intro ha
      exact Or.inr ha

theorem collect_imports_cons_empty (pool : Pool) {f : ScanOutcome}
    (paths : List ScanOutcome) (hne : f ≠ .otherError)
    (hempty : (scanOk f).modules = []) :
    collect_imports pool (f :: paths) = collect_imports pool paths := by
  by_cases hmem : ScanOutcome.otherError ∈ paths
  · rw [(collect_imports_eq_error_iff pool (f :: paths)).mpr (List.mem_cons_of_mem f hmem),
        (collect_imports_eq_error_iff pool paths).mpr hmem]
  · have hmem' : ScanOutcome.otherError ∉ f :: paths := by
      intro hc
      rcases List.mem_cons.mp hc with h | h
      · exact hne h.symm
      · exact hmem h
    rw [collect_imports_eq_ok pool hmem', collect_imports_eq_ok pool hmem,
      List.map_cons, List.flatten_cons, hempty, List.nil_append]

/-! ## Lemmas about `process_files` -/

theorem zip_self_map {α β : Type} (g : α → β) :
    ∀ l : List α, l.zip (l.map g) = l.map fun a => (a, g a)
  | [] => rfl
  | a :: l => by rw [List.map_cons, List.zip_cons_cons, zip_self_map g l, List.map_cons]

theorem map_fst_pair {α β : Type} (g : α → β) (l : List α) :
    List.map (Prod.fst ∘ fun a => (a, g a)) l = l := by
  have he : (Prod.fst ∘ fun a => (a, g a)) = fun a : α => a := rfl
  rw [he, List.map_id']

/-- The `dists` list computed at pyscry.py lines 182–184, expressed
directly over the sorted unique import list. -/
def distsOf (env : Env) (version_style : String) (imports : List String) : List String :=
  sortStr (((imports.map (module_to_distributions env)).flatten.map
    fun info => info.to_specifier version_style).dedup)

/-- The `unresolved` mapping built at pyscry.py lines 199–203,
expressed directly over the sorted unique import list. -/
def unresolvedOf (env : Env) (imports : List String) : List (String × List String) :=
  (sortStr (imports.filter fun m =>
      !(env.isStdlib m) && (module_to_distributions env m).isEmpty)).map
    fun m => (m, sortStr (env.pkgMap m))

/-- The payload handed to `json.dump` for the given import list. -/
def payloadOf (env : Env) (version_style : String) (imports : List String) : Payload :=
  { distributions := distsOf env version_style imports
    unresolved := unresolvedOf env imports }

theorem process_files_raise_eq (env : Env) (pool : Pool) (paths : List ScanOutcome)
    (fmt : String) (pretty : Bool) (style : String) {e : PyExn}
    (h : collect_imports pool paths = .error e) :
    process_files env pool paths fmt pretty style =
      { trace := [.scanPhase], error := some (.propagated e) } := by
  unfold process_files
  rw [h]

theorem process_files_json_eq (env : Env) (pool : Pool) (paths : List ScanOutcome)
    (pretty : Bool) (style : String) {imports : List String}
    (h : collect_imports pool paths = .ok imports) :
    process_files env pool paths "json" pretty style =
      { trace := [.scanPhase, .resolvePhase,
                  .output (.jsonDump (payloadOf env style imports) pretty),
                  .output (.text "\n")]
        error := none } := by
  unfold process_files
  rw [h]
  simp only [Pool.map, zip_self_map, List.map_map, List.filter_map, map_fst_pair]
  split
  · next hc => exact absurd hc (by decide)
  · split
    · next => rfl
    · next hc => exact absurd (by trivial) hc

theorem process_files_text_eq (env : Env) (pool : Pool) (paths : List ScanOutcome)
    (pretty : Bool) (style : String) {imports : List String}
    (h : collect_imports pool paths = .ok imports) :
    process_files env pool paths "text" pretty style =
      { trace := [.scanPhase, .resolvePhase]
          ++ (distsOf env style imports).map fun d => .output (.text (d ++ "\n"))
        error := none } := by
  unfold process_files
  rw [h]
  simp only [Pool.map, zip_self_map, List.map_map]
  split
  · next => rfl
  · next hc => exact absurd (by trivial) hc

theorem process_files_other_eq (env : Env) (pool : Pool) (paths : List ScanOutcome)
    {fmt : String} (pretty : Bool) (style : String) {imports : List String}
    (h₁ : fmt ≠ "text") (h₂ : fmt ≠ "json")
    (h : collect_imports pool paths = .ok imports) :
    process_files env pool paths fmt pretty style =
      { trace := [.scanPhase, .resolvePhase], error := some (.valueError fmt) } := by
  unfold process_files
  rw [h]
  simp only [Pool.map]
  split
  · next hc => exact absurd hc h₁
  · rfl


theorem jsonOutput_json (env : Env) (pool : Pool) (paths : List ScanOutcome)
    (pretty : Bool) (style : String) {imports : List String}
    (h : collect_imports pool paths = .ok imports) :
    jsonOutput (process_files env pool paths "json" pretty style) =
      some (payloadOf env style imports) := by
  rw [process_files_json_eq env pool paths pretty style h]
  rfl

theorem jsonOutput_json_inv {env : Env} {pool : Pool} {paths : List ScanOutcome}
    {pretty : Bool} {style : String} {p : Payload}
    (h : jsonOutput (process_files env pool paths "json" pretty style) = some p) :
    ∃ imports, collect_imports pool paths = .ok imports ∧ p = payloadOf env style imports := by
  cases hc : collect_imports pool paths with
  | error e =>
    rw [process_files_raise_eq env pool paths "json" pretty style hc] at h
    exact Option.noConfusion h
  | ok imports =>
    rw [jsonOutput_json env pool paths pretty style hc] at h
    injection h with h
    exact ⟨imports, rfl, h.symm⟩

/-! ## Lemmas about the payload components -/

theorem mem_unresolvedOf {env : Env} {imports : List String} {m : String}
    {cs : List String} :
    (m, cs) ∈ unresolvedOf env imports ↔
      m ∈ imports ∧ env.isStdlib m = false ∧ module_to_distributions env m = []
        ∧ cs = sortStr (env.pkgMap m) := by
  unfold unresolvedOf
  rw [List.mem_map]
  constructor
  · rintro ⟨a, ha, heq⟩
    rw [Prod.mk.injEq] at heq
    obtain ⟨rfl, rfl⟩ := heq
    rw [mem_sortStr, List.mem_filter] at ha
    obtain ⟨him, hb⟩ := ha
    rw [Bool.and_eq_true, Bool.not_eq_true'] at hb
    exact ⟨him, hb.1, List.isEmpty_iff.mp hb.2, rfl⟩
  · rintro ⟨him, hstd, hnil, rfl⟩
    refine ⟨m, ?_, rfl⟩
    rw [mem_sortStr, List.mem_filter]
    refine ⟨him, ?_⟩
    rw [Bool.and_eq_true, Bool.not_eq_true']
    exact ⟨hstd, List.isEmpty_iff.mpr hnil⟩

theorem mem_distsOf {env : Env} {style : String} {imports : List String} {s : String} :
    s ∈ distsOf env style imports ↔
      ∃ m ∈ imports, ∃ d ∈ module_to_distributions env m, d.to_specifier style = s := by
  unfold distsOf
  rw [mem_sortStr, List.mem_dedup, List.mem_map]
  constructor
  · rintro ⟨d, hd, rfl⟩
    rw [List.mem_flatten] at hd
    obtain ⟨l, hl, hdl⟩ := hd
    obtain ⟨m, hm, rfl⟩ := List.mem_map.mp hl
    exact ⟨m, hm, d, hdl, rfl⟩
  · rintro ⟨m, hm, d, hd, rfl⟩
    exact ⟨d, List.mem_flatten.mpr ⟨_, List.mem_map_of_mem _ hm, hd⟩, rfl⟩

theorem distsOf_sorted (env : Env) (style : String) (imports : List String) :
    (distsOf env style imports).Sorted strLe := sortStr_sorted _

theorem distsOf_nodup (env : Env) (style : String) (imports : List String) :
    (distsOf env style imports).Nodup := sortStr_nodup (List.nodup_dedup _)

/-! ## Lemmas about `module_to_distributions` -/

theorem module_to_distributions_map_name (env : Env) (m : String) :
    (module_to_distributions env m).map Distribution.name = env.pkgMap m := by
  unfold module_to_distributions
  rw [List.map_map]
  conv_rhs => rw [← List.map_id' (env.pkgMap m)]
  apply List.map_congr_left
  intro d _
  cases h : env.version d <;> simp [Function.comp, h]

theorem module_to_distributions_eq_nil_iff (env : Env) (m : String) :
    module_to_distributions env m = [] ↔ env.pkgMap m = [] := by
  unfold module_to_distributions
  exact List.map_eq_nil_iff

theorem mk_none_mem_module_to_distributions {env : Env} {m d : String}
    (hd : d ∈ env.pkgMap m) (hv : env.version d = none) :
    Distribution.mk d none ∈ module_to_distributions env m := by
  unfold module_to_distributions
  refine List.mem_map.mpr ⟨d, hd, ?_⟩
  rw [hv]

theorem to_specifier_none (d : String) (style : String) :
    (Distribution.mk d none).to_specifier style = d := rfl

/-! ## Lemmas about `find_imports` -/

mutual
theorem mem_find_imports : ∀ t : PyAst, wfAst t = true → ∀ m : String,
    (m ∈ find_imports t ↔ ∃ n ∈ absImportedNames t, m = firstSegment n)
  | .imp names, _, m => by
    simp [find_imports, absImportedNames, List.mem_map, eq_comm]
  | .impFrom module level, hw, m => by
    by_cases hl : level = 0
    · subst hl
      cases module with
      | none => simp [find_imports, absImportedNames]
      | some s =>
        have hs : s ≠ "" := by
          simpa [wfAst] using hw
        simp [find_imports, absImportedNames, hs]
    · have hl' : 0 < level := Nat.pos_of_ne_zero hl
      simp [find_imports, absImportedNames, hl, hl']
  | .other children, hw, m => by
    rw [show find_imports (.other children) = find_imports_children children from rfl,
      show absImportedNames (.other children) = absImportedNamesList children from rfl]
    exact mem_find_imports_children children (by simpa [wfAst] using hw) m

theorem mem_find_imports_children : ∀ ts : PyAstList, wfAstList ts = true → ∀ m : String,
    (m ∈ find_imports_children ts ↔ ∃ n ∈ absImportedNamesList ts, m = firstSegment n)
  | .nil, _, m => by simp [find_imports_children, absImportedNamesList]
  | .cons t ts, hw, m => by
    have hw' : wfAst t = true ∧ wfAstList ts = true := by
      simpa [wfAstList, Bool.and_eq_true] using hw
    rw [show find_imports_children (.cons t ts) = find_imports t ++ find_imports_children ts
        from rfl,
      show absImportedNamesList (.cons t ts) = absImportedNames t ++ absImportedNamesList ts
        from rfl]
    rw [List.mem_append]
    rw [mem_find_imports t hw'.1 m, mem_find_imports_children ts hw'.2 m]
    constructor
    · rintro (⟨n, hn, rfl⟩ | ⟨n, hn, rfl⟩)
      · exact ⟨n, List.mem_append.mpr (Or.inl hn), rfl⟩
      · exact ⟨n, List.mem_append.mpr (Or.inr hn), rfl⟩
    · rintro ⟨n, hn, rfl⟩
      rcases List.mem_append.mp hn with hn' | hn'
      · exact Or.inl ⟨n, hn', rfl⟩
      · exact Or.inr ⟨n, hn', rfl⟩
end

/-! ## Concrete test data

The environment and files of Scenario A of the spec (also the setup of
`tests/test_process_files.py`), plus an environment in which two
modules share one unversioned providing distribution. -/

/-- Syntax tree of the file `import requests` / `import missingpkg`. -/
def treeA : PyAst := .other (.cons (.imp ["requests"]) (.cons (.imp ["missingpkg"]) .nil))

/-- Syntax tree of the file `from os import path`. -/
def treeB : PyAst := .other (.cons (.impFrom (some "os") 0) .nil)

/-- Scenario A's first file, which parses successfully. -/
def fileA : ScanOutcome := .parsed treeA

/-- Scenario A's second file, which parses successfully. -/
def fileB : ScanOutcome := .parsed treeB

/-- Scenario A's host environment: `requests` is provided by
`requests-pkg` version `1.2.3`, no other module has a provider, and
`os` is standard library. -/
def envA : Env :=
  { pkgMap := fun m => if m = "requests" then ["requests-pkg"] else []
    version := fun d => if d = "requests-pkg" then some "1.2.3" else none
    isStdlib := fun m => m == "os" }

/-- Environment in which modules `m1` and `m2` are both provided by the
same distribution `dup` whose version lookup fails. -/
def envC : Env :=
  { pkgMap := fun m => if m = "m1" || m = "m2" then ["dup"] else []
    version := fun _ => none
    isStdlib := fun _ => false }

/-- Syntax tree of the file `import m1` / `import m2`. -/
def treeC : PyAst := .other (.cons (.imp ["m1"]) (.cons (.imp ["m2"]) .nil))

/-- A file importing the two modules of `envC`. -/
def fileC : ScanOutcome := .parsed treeC

theorem process_files_cons_scan_failure (env : Env) (pool : Pool) {f : ScanOutcome}
    (paths : List ScanOutcome) (fmt : String) (pretty : Bool) (style : String)
    (hne : f ≠ .otherError) (hempty : (scanOk f).modules = []) :
    process_files env pool (f :: paths) fmt pretty style =
      process_files env pool paths fmt pretty style := by
  unfold process_files
  rw [collect_imports_cons_empty pool paths hne hempty]

/-! ## The claims -/

/-- Claim C1: for every list of source files and every worker pool,
`collect_imports` returns the sorted duplicate-free list of the set
union of the per-file import sets; the result is unchanged under any
permutation of the file list, unchanged when a file occurs more than
once in the list, and independent of the pool's worker count. -/
theorem collect_imports_batch_union :
    (∀ (pool : Pool) (paths : List ScanOutcome) (res : List String),
        collect_imports pool paths = .ok res →
        res.Sorted strLe ∧ res.Nodup ∧ ∀ m, m ∈ res ↔ importedByBatch paths m)
    ∧ (∀ (pool₁ pool₂ : Pool) (paths₁ paths₂ : List ScanOutcome),
        List.Perm paths₁ paths₂ →
        collect_imports pool₁ paths₁ = collect_imports pool₂ paths₂)
    ∧ (∀ (pool : Pool) (f : ScanOutcome) (paths : List ScanOutcome),
        f ∈ paths → collect_imports pool (f :: paths) = collect_imports pool paths) := by
  refine ⟨?_, ?_, ?_⟩
  · intro pool paths res h
    obtain ⟨hs, hn⟩ := collect_imports_ok_sorted_nodup h
    exact ⟨hs, hn, mem_collect_imports_ok h⟩
  · intro pool₁ pool₂ paths₁ paths₂ h
    exact collect_imports_congr_perm pool₁ pool₂ h
  · intro pool f paths hf
    exact collect_imports_cons_mem pool hf

/-- Witness for C1 at the concrete Scenario A batch, with pools of one
and of four workers. -/
theorem collect_imports_batch_union_witness :
    ((["missingpkg", "os", "requests"] : List String).Sorted strLe
      ∧ (["missingpkg", "os", "requests"] : List String).Nodup
      ∧ ∀ m, m ∈ (["missingpkg", "os", "requests"] : List String) ↔
          importedByBatch [fileA, fileB] m)
    ∧ collect_imports ⟨1⟩ [fileA, fileB] = collect_imports ⟨4⟩ [fileB, fileA]
    ∧ collect_imports ⟨1⟩ (fileB :: [fileA, fileB]) = collect_imports ⟨1⟩ [fileA, fileB] :=
  ⟨collect_imports_batch_union.1 ⟨1⟩ [fileA, fileB] ["missingpkg", "os", "requests"] rfl,
   collect_imports_batch_union.2.1 ⟨1⟩ ⟨4⟩ [fileA, fileB] [fileB, fileA]
     (List.Perm.swap fileB fileA []),
   collect_imports_batch_union.2.2 ⟨1⟩ fileB [fileA, fileB]
     (List.mem_cons_of_mem fileA (List.mem_cons_self fileB []))⟩

/-- Claim C2: in the JSON output of `process_files`, a module name is a
key of `unresolved` iff it was imported by some scanned file, is not
classified standard-library, and its resolved distribution list is
empty; a module contributing a specifier, or classified stdlib, never
appears there. -/
theorem unresolved_iff_no_provider (env : Env) (pool : Pool) (paths : List ScanOutcome)
    (pretty : Bool) (style : String) (p : Payload)
    (h : jsonOutput (process_files env pool paths "json" pretty style) = some p) :
    ∀ m, (∃ cs, (m, cs) ∈ p.unresolved) ↔
      (importedByBatch paths m ∧ env.isStdlib m = false
        ∧ module_to_distributions env m = []) := by
  obtain ⟨imports, hc, rfl⟩ := jsonOutput_json_inv h
  intro m
  constructor
  · rintro ⟨cs, hcs⟩
    obtain ⟨him, hstd, hnil, _⟩ := mem_unresolvedOf.mp hcs
    exact ⟨(mem_collect_imports_ok hc m).mp him, hstd, hnil⟩
  · rintro ⟨him, hstd, hnil⟩
    exact ⟨sortStr (env.pkgMap m),
      mem_unresolvedOf.mpr ⟨(mem_collect_imports_ok hc m).mpr him, hstd, hnil, rfl⟩⟩

/-- Witness for C2 at Scenario A, whose JSON payload has the single
unresolved key `missingpkg`. -/
theorem unresolved_iff_no_provider_witness :
    (∃ cs, ("missingpkg", cs) ∈
        (Payload.mk ["requests-pkg>=1.2.3"] [("missingpkg", [])]).unresolved) ↔
      (importedByBatch [fileA, fileB] "missingpkg" ∧ envA.isStdlib "missingpkg" = false
        ∧ module_to_distributions envA "missingpkg" = []) :=
  unresolved_iff_no_provider envA ⟨1⟩ [fileA, fileB] true "minimum"
    (Payload.mk ["requests-pkg>=1.2.3"] [("missingpkg", [])]) rfl "missingpkg"

/-- Claim C3: `find_imports` returns exactly the set of first dotted
segments of absolutely imported names — `import a.b.c` contributes `a`
only, an absolute `from a.b import c` contributes `a`, a
relative import (level > 0) contributes nothing, and imports nested anywhere in
the tree count the same as top-of-file ones. -/
theorem find_imports_first_segments :
    (∀ t : PyAst, wfAst t = true →
        ∀ m, m ∈ find_imports t ↔ ∃ n ∈ absImportedNames t, m = firstSegment n)
    ∧ (∀ names, find_imports (.imp names) = names.map firstSegment)
    ∧ firstSegment "a.b.c" = "a"
    ∧ find_imports (.impFrom (some "a.b") 0) = ["a"]
    ∧ (∀ (module : Option String) (level : Nat), 0 < level →
        find_imports (.impFrom module level) = [])
    ∧ (∀ t : PyAst, find_imports (.other (.cons t .nil)) = find_imports t) := by
  refine ⟨mem_find_imports, fun names => rfl, rfl, rfl, ?_, ?_⟩
  · intro module level hl
    unfold find_imports
    rw [if_pos hl]
  · intro t
    show find_imports t ++ [] = find_imports t
    exact List.append_nil _

/-- Witness for C3 at the Scenario A tree and a concrete
relative import. -/
theorem find_imports_first_segments_witness :
    (∀ m, m ∈ find_imports treeA ↔ ∃ n ∈ absImportedNames treeA, m = firstSegment n)
    ∧ find_imports (.impFrom (some "pkg.sub") 2) = [] :=
  ⟨find_imports_first_segments.1 treeA rfl,
   find_imports_first_segments.2.2.2.2.1 (some "pkg.sub") 2 (by decide)⟩

/-- Claim C4: `Distribution.to_specifier` is a pure function of the
name, the version and the style, following the table `minimum ↦ >=`,
`compatible ↦ ~=`, `exact ↦ ==`, `none ↦ no version`, and renders the
bare name for every style when the version is absent. -/
theorem to_specifier_pure_table (name v style : String) :
    (Distribution.mk name (some v)).to_specifier "minimum" = name ++ ">=" ++ v
    ∧ (Distribution.mk name (some v)).to_specifier "compatible" = name ++ "~=" ++ v
    ∧ (Distribution.mk name (some v)).to_specifier "exact" = name ++ "==" ++ v
    ∧ (Distribution.mk name (some v)).to_specifier "none" = name
    ∧ (Distribution.mk name none).to_specifier style = name :=
  ⟨rfl, rfl, rfl, rfl, rfl⟩

/-- Claim C5: the `distributions` output of `process_files` is
lexicographically sorted and free of duplicate specifier strings for
every input, version style and output format — both in the JSON
payload and as the lines written in text mode. -/
theorem distributions_sorted_nodup :
    (∀ (env : Env) (pool : Pool) (paths : List ScanOutcome) (pretty : Bool)
        (style : String) (p : Payload),
        jsonOutput (process_files env pool paths "json" pretty style) = some p →
        p.distributions.Sorted strLe ∧ p.distributions.Nodup)
    ∧ (∀ (env : Env) (pool : Pool) (paths : List ScanOutcome) (pretty : Bool)
        (style : String) (imports : List String),
        collect_imports pool paths = .ok imports →
        (distsOf env style imports).Sorted strLe ∧ (distsOf env style imports).Nodup
          ∧ process_files env pool paths "text" pretty style =
              { trace := [.scanPhase, .resolvePhase]
                  ++ (distsOf env style imports).map fun d => .output (.text (d ++ "\n"))
                error := none }) := by
  constructor
  · intro env pool paths pretty style p h
    obtain ⟨imports, _, rfl⟩ := jsonOutput_json_inv h
    exact ⟨distsOf_sorted env style imports, distsOf_nodup env style imports⟩
  · intro env pool paths pretty style imports h
    exact ⟨distsOf_sorted env style imports, distsOf_nodup env style imports,
      process_files_text_eq env pool paths pretty style h⟩

/-- Witness for C5 in the collision environment `envC`, where two
modules render to the same specifier `dup` and the output still has no
duplicate. -/
theorem distributions_sorted_nodup_witness :
    ((Payload.mk ["dup"] []).distributions.Sorted strLe
      ∧ (Payload.mk ["dup"] []).distributions.Nodup)
    ∧ ((distsOf envC "minimum" ["m1", "m2"]).Sorted strLe
      ∧ (distsOf envC "minimum" ["m1", "m2"]).Nodup
      ∧ process_files envC ⟨1⟩ [fileC] "text" false "minimum" =
          { trace := [.scanPhase, .resolvePhase]
              ++ (distsOf envC "minimum" ["m1", "m2"]).map fun d => .output (.text (d ++ "\n"))
            error := none }) :=
  ⟨distributions_sorted_nodup.1 envC ⟨1⟩ [fileC] false "minimum" (Payload.mk ["dup"] []) rfl,
   distributions_sorted_nodup.2 envC ⟨1⟩ [fileC] false "minimum" ["m1", "m2"] rfl⟩

/-- Claim C6: a file whose read or parse fails with a syntax error or
an I/O failure yields a warning and the empty set instead of raising,
and its presence in a batch changes neither `collect_imports` nor
`process_files` for the remaining files. -/
theorem scan_failure_isolated :
    collect_imports_from_source .syntaxError
        = .ok { modules := [], warnings := ["Syntax error"] }
    ∧ collect_imports_from_source .osError
        = .ok { modules := [], warnings := ["Error reading"] }
    ∧ (∀ (pool : Pool) (paths : List ScanOutcome),
        collect_imports pool (.syntaxError :: paths) = collect_imports pool paths
          ∧ collect_imports pool (.osError :: paths) = collect_imports pool paths)
    ∧ (∀ (env : Env) (pool : Pool) (paths : List ScanOutcome) (fmt : String)
        (pretty : Bool) (style : String),
        process_files env pool (.syntaxError :: paths) fmt pretty style
            = process_files env pool paths fmt pretty style
          ∧ process_files env pool (.osError :: paths) fmt pretty style
            = process_files env pool paths fmt pretty style) := by
  refine ⟨rfl, rfl, ?_, ?_⟩
  · intro pool paths
    exact ⟨collect_imports_cons_empty pool paths (fun hc => ScanOutcome.noConfusion hc) rfl,
      collect_imports_cons_empty pool paths (fun hc => ScanOutcome.noConfusion hc) rfl⟩
  · intro env pool paths fmt pretty style
    exact ⟨process_files_cons_scan_failure env pool paths fmt pretty style
        (fun hc => ScanOutcome.noConfusion hc) rfl,
      process_files_cons_scan_failure env pool paths fmt pretty style
        (fun hc => ScanOutcome.noConfusion hc) rfl⟩

/-- Claim C7: `module_to_distributions` never fails and returns one
`Distribution` per candidate name; a candidate whose version lookup
fails becomes a version-less `Distribution`, rendered as the bare name
and placed in `distributions`, and such a module never appears in
`unresolved`, which is reserved for zero-candidate modules. -/
theorem module_to_distributions_per_candidate :
    (∀ (env : Env) (m : String),
        (module_to_distributions env m).map Distribution.name = env.pkgMap m)
    ∧ (∀ (env : Env) (m d : String), d ∈ env.pkgMap m → env.version d = none →
        Distribution.mk d none ∈ module_to_distributions env m
          ∧ ∀ style, (Distribution.mk d none).to_specifier style = d)
    ∧ (∀ (env : Env) (pool : Pool) (paths : List ScanOutcome) (pretty : Bool)
        (style : String) (p : Payload) (m : String),
        jsonOutput (process_files env pool paths "json" pretty style) = some p →
        importedByBatch paths m → env.pkgMap m ≠ [] →
        (∀ cs, (m, cs) ∉ p.unresolved)
          ∧ ∀ d, d ∈ env.pkgMap m → env.version d = none → d ∈ p.distributions) := by
  refine ⟨module_to_distributions_map_name, ?_, ?_⟩
  · intro env m d hd hv
    exact ⟨mk_none_mem_module_to_distributions hd hv, fun style => rfl⟩
  · intro env pool paths pretty style p m h him hne
    obtain ⟨imports, hc, rfl⟩ := jsonOutput_json_inv h
    constructor
    · intro cs hcs
      obtain ⟨_, _, hnil, _⟩ := mem_unresolvedOf.mp hcs
      exact hne ((module_to_distributions_eq_nil_iff env m).mp hnil)
    · intro d hd hv
      exact mem_distsOf.mpr ⟨m, (mem_collect_imports_ok hc m).mpr him,
        Distribution.mk d none, mk_none_mem_module_to_distributions hd hv, rfl⟩

/-- Witness for C7 in `envC`, where `m1` resolves to the version-less
distribution `dup` which appears as a bare specifier. -/
theorem module_to_distributions_per_candidate_witness :
    ((module_to_distributions envC "m1").map Distribution.name = envC.pkgMap "m1")
    ∧ (Distribution.mk "dup" none ∈ module_to_distributions envC "m1"
        ∧ ∀ style, (Distribution.mk "dup" none).to_specifier style = "dup")
    ∧ ((∀ cs, ("m1", cs) ∉ (Payload.mk ["dup"] []).unresolved)
        ∧ ∀ d, d ∈ envC.pkgMap "m1" → envC.version d = none →
            d ∈ (Payload.mk ["dup"] []).distributions) :=
  ⟨module_to_distributions_per_candidate.1 envC "m1",
   module_to_distributions_per_candidate.2.1 envC "m1" "dup" (by decide) rfl,
   module_to_distributions_per_candidate.2.2 envC ⟨1⟩ [fileC] false "minimum"
     (Payload.mk ["dup"] []) "m1" rfl
     ⟨fileC, List.mem_cons_self fileC [],
      { modules := find_imports treeC, warnings := [] }, rfl, by decide⟩
     (by decide)⟩

/-- Counterexample for C8: with the unsupported format `xml`,
`process_files` does raise the configuration `ValueError` and writes
nothing, but the scan-phase and resolve-phase dispatches both precede
the error in the trace — the error is not detected before concurrent
work starts, refuting the claim as stated. -/
theorem process_files_bad_format_counterexample :
    (process_files envA ⟨1⟩ [fileA, fileB] "xml" false "minimum").error
        = some (.valueError "xml")
    ∧ Event.scanPhase ∈ (process_files envA ⟨1⟩ [fileA, fileB] "xml" false "minimum").trace
    ∧ Event.resolvePhase ∈
        (process_files envA ⟨1⟩ [fileA, fileB] "xml" false "minimum").trace := by
  refine ⟨rfl, ?_, ?_⟩ <;> decide

/-- Claim C8 as amended: for every `output_format` other than `text`
and `json`, `process_files` fails with the configuration `ValueError`
and writes no output at all — but the error is raised only after the
concurrent scan and resolve phases have run, not before they start. -/
theorem process_files_bad_format_late_error (env : Env) (pool : Pool)
    (paths : List ScanOutcome) (fmt : String) (pretty : Bool) (style : String)
    (h₁ : fmt ≠ "text") (h₂ : fmt ≠ "json") :
    (∀ c, Event.output c ∉ (process_files env pool paths fmt pretty style).trace)
    ∧ (process_files env pool paths fmt pretty style).error.isSome = true
    ∧ (∀ imports, collect_imports pool paths = .ok imports →
        process_files env pool paths fmt pretty style =
          { trace := [.scanPhase, .resolvePhase], error := some (.valueError fmt) }) := by
  cases hc : collect_imports pool paths with
  | error e =>
    rw [process_files_raise_eq env pool paths fmt pretty style hc]
    refine ⟨?_, rfl, ?_⟩
    · intro c hmem
      rcases List.mem_cons.mp hmem with h | h
      · exact Event.noConfusion h
      · cases h
    · intro imports him
      cases him
  | ok imports =>
    rw [process_files_other_eq env pool paths pretty style h₁ h₂ hc]
    refine ⟨?_, rfl, ?_⟩
    · intro c hmem
      rcases List.mem_cons.mp hmem with h | h
      · exact Event.noConfusion h
      · rcases List.mem_cons.mp h with h' | h'
        · exact Event.noConfusion h'
        · cases h'
    · intro imports' _
      rfl

/-- Witness for the amended C8 at the concrete format `xml`. -/
theorem process_files_bad_format_late_error_witness :
    (∀ c, Event.output c ∉ (process_files envA ⟨1⟩ [fileA, fileB] "xml" false "minimum").trace)
    ∧ (process_files envA ⟨1⟩ [fileA, fileB] "xml" false "minimum").error.isSome = true
    ∧ (∀ imports, collect_imports ⟨1⟩ [fileA, fileB] = .ok imports →
        process_files envA ⟨1⟩ [fileA, fileB] "xml" false "minimum" =
          { trace := [.scanPhase, .resolvePhase]
            error := some (.valueError "xml") }) :=
  process_files_bad_format_late_error envA ⟨1⟩ [fileA, fileB] "xml" false "minimum"
    (by decide) (by decide)

/-- Claim C9: in the JSON output of `process_files`, every value of the
`unresolved` mapping is the empty list, because a module resolves to
the empty distribution list exactly when the package map lists no
candidate for it. -/
theorem unresolved_candidates_empty (env : Env) (pool : Pool) (paths : List ScanOutcome)
    (pretty : Bool) (style : String) (p : Payload)
    (h : jsonOutput (process_files env pool paths "json" pretty style) = some p) :
    ∀ m cs, (m, cs) ∈ p.unresolved → cs = [] := by
  obtain ⟨imports, _, rfl⟩ := jsonOutput_json_inv h
  intro m cs hcs
  obtain ⟨_, _, hnil, rfl⟩ := mem_unresolvedOf.mp hcs
  rw [(module_to_distributions_eq_nil_iff env m).mp hnil]
  rfl

/-- Witness for C9 at Scenario A: the candidate list attached to the
unresolved module `missingpkg` is empty. -/
theorem unresolved_candidates_empty_witness :
    ("missingpkg", ([] : List String)) ∈
        (Payload.mk ["requests-pkg>=1.2.3"] [("missingpkg", [])]).unresolved
    ∧ ([] : List String) = [] :=
  ⟨by decide,
   unresolved_candidates_empty envA ⟨1⟩ [fileA, fileB] false "minimum"
     (Payload.mk ["requests-pkg>=1.2.3"] [("missingpkg", [])]) rfl "missingpkg" []
     (by decide)⟩

/-- Claim C10: only `SyntaxError` and `OSError` are caught and turned
into a warning plus the empty set; any other exception raised while
reading or parsing a file (for example a text-decoding error) escapes
`collect_imports_from_source`, is re-raised by `pool.map`, and aborts
the whole batch. -/
theorem unhandled_scan_exception_aborts :
    collect_imports_from_source .otherError = .error .uncaught
    ∧ (∀ (pool : Pool) (pre post : List ScanOutcome),
        collect_imports pool (pre ++ .otherError :: post) = .error .uncaught)
    ∧ (∀ (env : Env) (pool : Pool) (pre post : List ScanOutcome) (fmt : String)
        (pretty : Bool) (style : String),
        process_files env pool (pre ++ .otherError :: post) fmt pretty style
          = { trace := [.scanPhase], error := some (.propagated .uncaught) }) := by
  refine ⟨rfl, ?_, ?_⟩
  · intro pool pre post
    exact (collect_imports_eq_error_iff pool _).mpr
      (List.mem_append.mpr (Or.inr (List.mem_cons_self _ _)))
  · intro env pool pre post fmt pretty style
    exact process_files_raise_eq env pool _ fmt pretty style
      ((collect_imports_eq_error_iff pool _).mpr
        (List.mem_append.mpr (Or.inr (List.mem_cons_self _ _))))

end PyScry
